import Mathlib

set_option maxRecDepth 100000

/-!
# Verification of the Atomic Chess rules engine (`ChessVar.py`)

Shallow embedding of the `ChessVar` class.  The board is the source's
8×8 list of lists of characters (uppercase = White, lowercase = Black,
`' '` = empty).  Turn and game state are the source's string sentinels.

Python exceptions are modelled by `Option`: a function that can raise
(`IndexError` from a list subscript, `ValueError` from unpacking or
`int()`) returns `none` exactly when the Python code raises.  Python's
negative-index wraparound for list subscripts is modelled faithfully by
`pyIdx`.  Reads and writes that the source performs only after its own
bounds checks are modelled by the total `cellAt` / `setCell`, which agree
with Python list indexing on in-range indices.
-/

/-- A board cell: one character, as in the Python source. -/
abbrev Cell := Char

/-- The board: a list of 8 rows of 8 characters (`_board` in the source). -/
abbrev Board := List (List Cell)

/-- The game object: fields `_board`, `_turn`, `_game_state` of `ChessVar`. -/
structure ChessVar where
  board : Board
  turn : String
  game_state : String
deriving DecidableEq

/-- `_initialize_board`: the standard starting position. -/
def initialize_board : Board :=
  [ ['r', 'n', 'b', 'q', 'k', 'b', 'n', 'r'],
    ['p', 'p', 'p', 'p', 'p', 'p', 'p', 'p'],
    [' ', ' ', ' ', ' ', ' ', ' ', ' ', ' '],
    [' ', ' ', ' ', ' ', ' ', ' ', ' ', ' '],
    [' ', ' ', ' ', ' ', ' ', ' ', ' ', ' '],
    [' ', ' ', ' ', ' ', ' ', ' ', ' ', ' '],
    ['P', 'P', 'P', 'P', 'P', 'P', 'P', 'P'],
    ['R', 'N', 'B', 'Q', 'K', 'B', 'N', 'R'] ]

/-- `__init__`: board in the starting position, White to move, game unfinished. -/
def initialState : ChessVar :=
  { board := initialize_board, turn := "WHITE", game_state := "UNFINISHED" }

/-- `get_game_state`. -/
def get_game_state (g : ChessVar) : String := g.game_state

/-- Python list subscript `l[i]` with negative-index wraparound;
`none` models `IndexError`. -/
def pyIdx {α : Type} (l : List α) (i : Int) : Option α :=
  let j : Int := if i < 0 then (l.length : Int) + i else i
  if 0 ≤ j then l[j.toNat]? else none

/-- Python `board[r][c]`; `none` models `IndexError` in either subscript. -/
def pyIdx2 (b : Board) (r c : Int) : Option Cell :=
  (pyIdx b r).bind fun rw => pyIdx rw c

/-- Total read of `board[r][c]`, used where the source has already
established `0 <= r < 8 and 0 <= c < 8` (no wraparound, default `' '`). -/
def cellAt (b : Board) (r c : Int) : Cell :=
  if r < 0 ∨ c < 0 then ' '
  else ((b[r.toNat]?.getD [])[c.toNat]?).getD ' '

/-- Total write `board[r][c] = x`, used where the source has already
established `0 <= r < 8 and 0 <= c < 8`. -/
def setCell (b : Board) (r c : Int) (x : Cell) : Board :=
  if r < 0 ∨ c < 0 then b
  else b.set r.toNat ((b[r.toNat]?.getD []).set c.toNat x)

/-- `_convert_to_indices`: `col, row = position; return 8 - int(row), ord(col) - ord('a')`.
`none` models the `ValueError` raised when the string does not have exactly
two characters or the second is not a digit. -/
def convert_to_indices (pos : String) : Option (Int × Int) :=
  match pos.data with
  | [col, row] =>
      if row.isDigit then some (8 - ((row.toNat : Int) - 48), (col.toNat : Int) - 97)
      else none
  | _ => none

/-- The diagonal path walk of `_is_valid_bishop_rook_queen_move`
(`while current_row != end_row and current_col != end_col`).  The `Nat`
argument is fuel; every call made by the validator finishes well within it. -/
def diag_walk (b : Board) (er ec rs cs : Int) : Int → Int → Nat → Bool
  | _, _, 0 => false
  | r, c, Nat.succ fuel =>
      if r ≠ er ∧ c ≠ ec then
        if cellAt b r c ≠ ' ' then false
        else diag_walk b er ec rs cs (r + rs) (c + cs) fuel
      else true

/-- The horizontal path walk (`while current_col != end_col`). -/
def row_walk (b : Board) (row ec cs : Int) : Int → Nat → Bool
  | _, 0 => false
  | c, Nat.succ fuel =>
      if c ≠ ec then
        if cellAt b row c ≠ ' ' then false
        else row_walk b row ec cs (c + cs) fuel
      else true

/-- The vertical path walk (`while current_row != end_row`). -/
def col_walk (b : Board) (col er rs : Int) : Int → Nat → Bool
  | _, 0 => false
  | r, Nat.succ fuel =>
      if r ≠ er then
        if cellAt b r col ≠ ' ' then false
        else col_walk b col er rs (r + rs) fuel
      else true

/-- `_is_valid_bishop_rook_queen_move`. -/
def is_valid_bishop_rook_queen_move (b : Board) (piece : Cell)
    (sr sc er ec : Int) : Bool :=
  if (piece.toUpper = 'B' ∨ piece.toUpper = 'Q') ∧
      (er - sr).natAbs = (ec - sc).natAbs then
    diag_walk b er ec (if sr < er then 1 else -1) (if sc < ec then 1 else -1)
      (sr + (if sr < er then 1 else -1)) (sc + (if sc < ec then 1 else -1)) 16
  else if (piece.toUpper = 'R' ∨ piece.toUpper = 'Q') ∧ (sr = er ∨ sc = ec) then
    if sr = er then
      row_walk b sr ec (if sc < ec then 1 else -1) (sc + (if sc < ec then 1 else -1)) 16
    else
      col_walk b sc er (if sr < er then 1 else -1) (sr + (if sr < er then 1 else -1)) 16
  else false

/-- Lines 150-165 of the source: the knight, bishop/rook/queen and king
checks that follow the pawn block (a white pawn that matches none of its
cases also falls through to this code and fails every test here). -/
def after_pawn_checks (b : Board) (piece : Cell) (sr sc er ec : Int) : Bool :=
  if piece.toUpper = 'N' ∧
      (((er - sr).natAbs = 2 ∧ (ec - sc).natAbs = 1) ∨
       ((er - sr).natAbs = 1 ∧ (ec - sc).natAbs = 2)) then true
  else if piece.toUpper = 'B' ∨ piece.toUpper = 'R' ∨ piece.toUpper = 'Q' then
    is_valid_bishop_rook_queen_move b piece sr sc er ec
  else if piece.toUpper = 'K' ∧ (er - sr).natAbs ≤ 1 ∧ (ec - sc).natAbs ≤ 1 then true
  else false

/-- Lines 126-165 of `_is_valid_move`: everything after the turn-color and
bounds checks (all reads here are in bounds, hence total). -/
def valid_core (b : Board) (sr sc er ec : Int) (piece target : Cell) : Bool :=
  if piece.toUpper = 'K' ∧ target ≠ ' ' then false
  else if piece.toUpper = 'P' then
    if piece.isUpper then
      if sr = 6 ∧ er = 4 ∧ sc = ec ∧ cellAt b 5 sc = ' ' ∧ cellAt b 4 sc = ' ' then true
      else if er = sr - 1 ∧ sc = ec ∧ cellAt b er ec = ' ' then true
      else if er = sr - 1 ∧ (sc - ec).natAbs = 1 ∧ target ≠ ' ' then true
      else after_pawn_checks b piece sr sc er ec
    else
      if sr = 1 ∧ er = 3 ∧ sc = ec ∧ cellAt b 2 sc = ' ' ∧ cellAt b 3 sc = ' ' then true
      else if er = sr + 1 ∧ sc = ec ∧ cellAt b er ec = ' ' then true
      else if er = sr + 1 ∧ (sc - ec).natAbs = 1 ∧ target ≠ ' ' then true
      else false
  else after_pawn_checks b piece sr sc er ec

/-- `_is_valid_move`.  The conversions and the two board reads happen, as in
the source, before the turn-color check and the bounds check, so they can
raise (`none`). -/
def is_valid_move (g : ChessVar) (s e : String) : Option Bool :=
  (convert_to_indices s).bind fun p =>
  (convert_to_indices e).bind fun q =>
  (pyIdx2 g.board p.1 p.2).bind fun piece =>
  (pyIdx2 g.board q.1 q.2).bind fun target =>
  some (
    if (g.turn = "WHITE" ∧ piece.isLower) ∨ (g.turn = "BLACK" ∧ piece.isUpper) then
      false
    else if s = e ∨ ¬(0 ≤ p.1 ∧ p.1 < 8 ∧ 0 ≤ p.2 ∧ p.2 < 8 ∧
                      0 ≤ q.1 ∧ q.1 < 8 ∧ 0 ≤ q.2 ∧ q.2 < 8) then
      false
    else valid_core g.board p.1 p.2 q.1 q.2 piece target)

/-- The 8 neighbor offsets used by `_handle_explosion`. -/
def directions : List (Int × Int) :=
  [(-1, -1), (-1, 0), (-1, 1), (0, -1), (0, 1), (1, -1), (1, 0), (1, 1)]

/-- One iteration of the explosion's clearing loop: remove a surrounding
piece unless it is a pawn or the square is empty. -/
def clearStep (row col : Int) (b : Board) (d : Int × Int) : Board :=
  let r := row + d.1
  let c := col + d.2
  if 0 ≤ r ∧ r < 8 ∧ 0 ≤ c ∧ c < 8 ∧
      ¬(cellAt b r c = 'P' ∨ cellAt b r c = 'p' ∨ cellAt b r c = ' ') then
    setCell b r c ' '
  else b

/-- One iteration of the explosion's king-detection loop.  As in the source,
it reads the board as it stands after the clearing loop. -/
def kingStep (b : Board) (row col : Int) (gs : String) (d : Int × Int) : String :=
  let r := row + d.1
  let c := col + d.2
  if 0 ≤ r ∧ r < 8 ∧ 0 ≤ c ∧ c < 8 then
    let gs1 := if cellAt b r c = 'K' then "BLACK_WON" else gs
    if cellAt b r c = 'k' then "WHITE_WON" else gs1
  else gs

/-- `_handle_explosion`: clear the center, clear non-pawn neighbors, then
run the king check over the already-cleared squares.  Returns the new board
and the new `_game_state`. -/
def handle_explosion (b : Board) (gs : String) (row col : Int) : Board × String :=
  let b1 := setCell b row col ' '
  let b2 := directions.foldl (clearStep row col) b1
  let gs2 := (directions ++ [(0, 0)]).foldl (kingStep b2 row col) gs
  (b2, gs2)

/-- `_is_king_captured`: true iff either king is absent from the board. -/
def is_king_captured (b : Board) : Bool :=
  !(b.any fun rw => rw.contains 'K') || !(b.any fun rw => rw.contains 'k')

/-- `make_move`.  `none` models a Python exception escaping the call;
`some (result, g')` is the returned boolean together with the object state
after the call. -/
def make_move (g : ChessVar) (s e : String) : Option (Bool × ChessVar) :=
  if g.game_state ≠ "UNFINISHED" then some (false, g)
  else
    match is_valid_move g s e with
    | none => none
    | some false => some (false, g)
    | some true =>
      match convert_to_indices s, convert_to_indices e with
      | some p, some q =>
        let piece := cellAt g.board p.1 p.2
        let target := cellAt g.board q.1 q.2
        let b1 := setCell (setCell g.board q.1 q.2 piece) p.1 p.2 ' '
        let br := if target ≠ ' ' then handle_explosion b1 g.game_state q.1 q.2
                  else (b1, g.game_state)
        let turn1 := if g.turn = "WHITE" then "BLACK" else "WHITE"
        let gs2 := if is_king_captured br.1 then
                     (if turn1 = "WHITE" then "BLACK_WON" else "WHITE_WON")
                   else br.2
        some (true, { board := br.1, turn := turn1, game_state := gs2 })
      | _, _ => none

/-- Play a list of `(start, end)` moves from a state, collecting the
returned booleans; `none` as soon as a call raises. -/
def playMoves : ChessVar → List (String × String) → Option (List Bool × ChessVar)
  | g, [] => some ([], g)
  | g, (s, e) :: rest =>
    match make_move g s e with
    | none => none
    | some (r, g1) =>
      match playMoves g1 rest with
      | none => none
      | some (rs, gf) => some (r :: rs, gf)

/-- Well-formed board: 8 rows of 8 cells (true of the initial board and
preserved by every mutation the engine performs). -/
def WF (b : Board) : Prop :=
  b.length = 8 ∧ ∀ rw ∈ b, rw.length = 8

instance : DecidablePred WF := fun b => by
  unfold WF; infer_instance

/-- The board reached (as traced through `make_move`) after
e2e4 d7d5 a2a3 Bc8-g4 a3a4 Bg4-e2, then the relocation of White's queen
d1xe2: the white queen stands on e2 = (6,4) over the captured bishop and
the white king is adjacent at e1 = (7,4).  `_handle_explosion` is about to
run at (6,4). -/
def c2Board : Board :=
  [ ['r', 'n', ' ', 'q', 'k', 'b', 'n', 'r'],
    ['p', 'p', 'p', ' ', 'p', 'p', 'p', 'p'],
    [' ', ' ', ' ', ' ', ' ', ' ', ' ', ' '],
    [' ', ' ', ' ', 'p', ' ', ' ', ' ', ' '],
    ['P', ' ', ' ', ' ', 'P', ' ', ' ', ' '],
    [' ', ' ', ' ', ' ', ' ', ' ', ' ', ' '],
    [' ', 'P', 'P', 'P', 'Q', 'P', 'P', 'P'],
    ['R', 'N', 'B', ' ', 'K', 'B', 'N', 'R'] ]

/-- The spec's path condition for sliding pieces: every square strictly
between start and end (stepping one square at a time in the direction of
travel) is empty.  Stated over the same coordinates the code uses. -/
def betweenClear (b : Board) (sr sc er ec : Int) : Prop :=
  ∀ i : Nat, i < max (er - sr).natAbs (ec - sc).natAbs - 1 →
    cellAt b (sr + ((i : Int) + 1) * (er - sr).sign)
             (sc + ((i : Int) + 1) * (ec - sc).sign) = ' '

instance (b : Board) (sr sc er ec : Int) : Decidable (betweenClear b sr sc er ec) := by
  unfold betweenClear
  infer_instance

/-- Number of occupied squares of the 8×8 grid. -/
def occCount (b : Board) : Nat :=
  ∑ rc in Finset.range 8 ×ˢ Finset.range 8,
    if cellAt b (rc.1 : Int) (rc.2 : Int) ≠ ' ' then 1 else 0

/-- A finished game, used to witness the terminal-state claim. -/
def wonState : ChessVar :=
  { board := initialize_board, turn := "WHITE", game_state := "BLACK_WON" }

/-- The move sequence e2e4, d7d5, a2a3, Bc8-g4, a3a4, Bg4-e2, Qd1xe2: the
final capture detonates next to White's own king. -/
def c1Moves : List (String × String) :=
  [("e2", "e4"), ("d7", "d5"), ("a2", "a3"), ("c8", "g4"),
   ("a3", "a4"), ("g4", "e2"), ("d1", "e2")]

/-- Preparation moves for the C4 counterexample: after d2-d3 and a7-a6 it
is White's turn with white pawns on d3 and e2. -/
def c4Moves : List (String × String) := [("d2", "d3"), ("a7", "a6")]


/-! ## Basic list and cell lemmas -/

theorem cellAt_setCell_ne (b : Board) (r' c' r c : Int) (x : Cell)
    (h : ¬(r = r' ∧ c = c')) :
    cellAt (setCell b r' c' x) r c = cellAt b r c := by
  unfold cellAt setCell
  by_cases hn' : r' < 0 ∨ c' < 0
  · simp only [if_pos hn']
  · simp only [if_neg hn']
    by_cases hn : r < 0 ∨ c < 0
    · simp only [if_pos hn]
    · simp only [if_neg hn]
      push_neg at hn' hn
      by_cases hr : r'.toNat = r.toNat
      · have hrr : r = r' := by omega
        have hcn : c'.toNat ≠ c.toNat := by
          intro hceq
          exact h ⟨hrr, by omega⟩
        rw [← hr, List.getElem?_set]
        by_cases hlt : r'.toNat < b.length
        · rw [if_pos rfl, if_pos hlt]
          simp only [Option.getD_some]
          rw [List.getElem?_set_ne hcn, hr]
        · rw [if_pos rfl, if_neg hlt]
          rw [List.getElem?_eq_none (le_of_not_lt hlt)]
      · rw [List.getElem?_set_ne hr]

theorem cellAt_setCell_blank (b : Board) (r c : Int) :
    cellAt (setCell b r c ' ') r c = ' ' := by
  unfold cellAt setCell
  by_cases hn : r < 0 ∨ c < 0
  · simp only [if_pos hn]
  · simp only [if_neg hn]
    rw [List.getElem?_set]
    by_cases hlt : r.toNat < b.length
    · rw [if_pos rfl, if_pos hlt]
      simp only [Option.getD_some]
      rw [List.getElem?_set]
      by_cases hc : c.toNat < (b[r.toNat]?.getD []).length
      · rw [if_pos rfl, if_pos hc]
        rfl
      · rw [if_pos rfl, if_neg hc]
        rfl
    · rw [if_pos rfl, if_neg hlt]
      rfl

theorem cellAt_setCell_self (b : Board) (r c : Int) (x : Cell)
    (h : cellAt b r c ≠ ' ') :
    cellAt (setCell b r c x) r c = x := by
  unfold cellAt setCell at *
  by_cases hn : r < 0 ∨ c < 0
  · rw [if_pos hn] at h
    exact absurd rfl h
  · simp only [if_neg hn] at h ⊢
    have hlt : r.toNat < b.length := by
      by_contra h2
      rw [List.getElem?_eq_none (le_of_not_lt h2)] at h
      exact h rfl
    have hc : c.toNat < (b[r.toNat]?.getD []).length := by
      by_contra h2
      rw [List.getElem?_eq_none (le_of_not_lt h2)] at h
      exact h rfl
    rw [List.getElem?_set, if_pos rfl, if_pos hlt]
    simp only [Option.getD_some]
    rw [List.getElem?_set, if_pos rfl, if_pos hc]
    rfl

theorem pyIdx2_in_bounds (b : Board) (r c : Int) (hWF : WF b)
    (hr0 : 0 ≤ r) (hr8 : r < 8) (hc0 : 0 ≤ c) (hc8 : c < 8) :
    pyIdx2 b r c = some (cellAt b r c) := by
  obtain ⟨hlen, hrows⟩ := hWF
  have hrlt : r.toNat < b.length := by omega
  have hmem : b[r.toNat] ∈ b := List.getElem_mem hrlt
  have hclt : c.toNat < b[r.toNat].length := by
    rw [hrows _ hmem]; omega
  unfold pyIdx2 pyIdx cellAt
  simp only [if_neg (by omega : ¬r < 0), if_neg (by omega : ¬c < 0),
    if_neg (by omega : ¬(r < 0 ∨ c < 0)), if_pos hr0,
    List.getElem?_eq_getElem hrlt, Option.some_bind, Option.getD_some, if_pos hc0,
    List.getElem?_eq_getElem hclt]

/-- Evaluation of `_is_valid_move` when the notation parses, the indices are
in bounds, the squares differ and the moved piece has the mover's color:
it returns the result of the post-check core. -/
theorem is_valid_move_eval (g : ChessVar) (s e : String) (sr sc er ec : Int)
    (hs : convert_to_indices s = some (sr, sc))
    (he : convert_to_indices e = some (er, ec))
    (hWF : WF g.board)
    (hb : 0 ≤ sr ∧ sr < 8 ∧ 0 ≤ sc ∧ sc < 8 ∧ 0 ≤ er ∧ er < 8 ∧ 0 ≤ ec ∧ ec < 8)
    (hse : s ≠ e)
    (htc : ¬((g.turn = "WHITE" ∧ (cellAt g.board sr sc).isLower) ∨
             (g.turn = "BLACK" ∧ (cellAt g.board sr sc).isUpper))) :
    is_valid_move g s e =
      some (valid_core g.board sr sc er ec
              (cellAt g.board sr sc) (cellAt g.board er ec)) := by
  obtain ⟨h1, h2, h3, h4, h5, h6, h7, h8⟩ := hb
  unfold is_valid_move
  rw [hs, he]
  simp only [Option.some_bind]
  rw [pyIdx2_in_bounds g.board sr sc hWF h1 h2 h3 h4,
      pyIdx2_in_bounds g.board er ec hWF h5 h6 h7 h8]
  simp only [Option.some_bind]
  rw [if_neg htc, if_neg]
  push_neg
  exact ⟨hse, h1, h2, h3, h4, h5, h6, h7, h8⟩

/-- A successful validation implies that both squares parsed and are in
bounds. -/
theorem is_valid_move_true_bounds (g : ChessVar) (s e : String)
    (h : is_valid_move g s e = some true) :
    ∃ sr sc er ec, convert_to_indices s = some (sr, sc) ∧
      convert_to_indices e = some (er, ec) ∧
      0 ≤ sr ∧ sr < 8 ∧ 0 ≤ sc ∧ sc < 8 ∧ 0 ≤ er ∧ er < 8 ∧ 0 ≤ ec ∧ ec < 8 := by
  unfold is_valid_move at h
  cases hs : convert_to_indices s with
  | none => rw [hs] at h; simp at h
  | some p =>
    cases he : convert_to_indices e with
    | none => rw [hs, he] at h; simp at h
    | some q =>
      rw [hs, he] at h
      simp only [Option.some_bind] at h
      cases hp : pyIdx2 g.board p.1 p.2 with
      | none => rw [hp] at h; simp at h
      | some piece =>
        cases hq : pyIdx2 g.board q.1 q.2 with
        | none => rw [hp, hq] at h; simp at h
        | some target =>
          rw [hp, hq] at h
          simp only [Option.some_bind, Option.some_inj] at h
          refine ⟨p.1, p.2, q.1, q.2, by simp [hs], by simp [he], ?_⟩
          by_cases hbnd : 0 ≤ p.1 ∧ p.1 < 8 ∧ 0 ≤ p.2 ∧ p.2 < 8 ∧
              0 ≤ q.1 ∧ q.1 < 8 ∧ 0 ≤ q.2 ∧ q.2 < 8
          · exact hbnd
          · exfalso
            by_cases htc : (g.turn = "WHITE" ∧ piece.isLower) ∨
                (g.turn = "BLACK" ∧ piece.isUpper)
            · rw [if_pos htc] at h
              exact Bool.noConfusion h
            · rw [if_neg htc, if_pos (Or.inr hbnd)] at h
              exact Bool.noConfusion h

/-! ## Explosion analysis

Pointwise characterization of the clearing loop of `_handle_explosion`.
The 9 squares it touches are pairwise distinct, so the value of each
square after the whole loop is determined by its own iteration. -/

/-- A square not targeted by any offset in `ds` is left unchanged by the
clearing loop. -/
theorem foldClear_untouched (row col : Int) (ds : List (Int × Int)) :
    ∀ (b : Board) (r c : Int),
      (∀ d ∈ ds, ¬(r = row + d.1 ∧ c = col + d.2)) →
      cellAt (ds.foldl (clearStep row col) b) r c = cellAt b r c := by
  induction ds with
  | nil => intro b r c _; rfl
  | cons d rest ih =>
    intro b r c hd
    rw [List.foldl_cons]
    rw [ih (clearStep row col b d) r c (fun d' hd' => hd d' (List.mem_cons_of_mem d hd'))]
    simp only [clearStep]
    split
    · exact cellAt_setCell_ne _ _ _ _ _ _ (hd d (List.mem_cons_self d rest))
    · rfl

/-- Any single clearing iteration preserves the property of being a pawn
or empty, at every square. -/
theorem clearStep_preserves_immune (row col : Int) (b : Board) (d : Int × Int)
    (r c : Int)
    (h : cellAt b r c = 'P' ∨ cellAt b r c = 'p' ∨ cellAt b r c = ' ') :
    cellAt (clearStep row col b d) r c = 'P' ∨
    cellAt (clearStep row col b d) r c = 'p' ∨
    cellAt (clearStep row col b d) r c = ' ' := by
  simp only [clearStep]
  split
  · by_cases hsame : r = row + d.1 ∧ c = col + d.2
    · obtain ⟨h1, h2⟩ := hsame
      subst h1; subst h2
      right; right
      exact cellAt_setCell_blank _ _ _
    · rw [cellAt_setCell_ne _ _ _ _ _ _ hsame]
      exact h
  · exact h

/-- The whole clearing loop preserves pawn-or-empty at every square. -/
theorem foldClear_preserves_immune (row col : Int) (ds : List (Int × Int)) :
    ∀ (b : Board) (r c : Int),
      (cellAt b r c = 'P' ∨ cellAt b r c = 'p' ∨ cellAt b r c = ' ') →
      (cellAt (ds.foldl (clearStep row col) b) r c = 'P' ∨
       cellAt (ds.foldl (clearStep row col) b) r c = 'p' ∨
       cellAt (ds.foldl (clearStep row col) b) r c = ' ') := by
  induction ds with
  | nil => intro b r c h; exact h
  | cons d rest ih =>
    intro b r c h
    rw [List.foldl_cons]
    exact ih _ r c (clearStep_preserves_immune row col b d r c h)

/-- The value, after the whole clearing loop, of the square targeted by an
offset `d` that occurs in `ds` (with the other offsets targeting other
squares): cleared if in bounds and not pawn-or-empty, kept otherwise. -/
theorem foldClear_touched (row col : Int) (ds : List (Int × Int))
    (d : Int × Int) (b : Board) (hmem : d ∈ ds) (hnd : ds.Nodup) :
    cellAt (ds.foldl (clearStep row col) b) (row + d.1) (col + d.2) =
      if 0 ≤ row + d.1 ∧ row + d.1 < 8 ∧ 0 ≤ col + d.2 ∧ col + d.2 < 8 ∧
          ¬(cellAt b (row + d.1) (col + d.2) = 'P' ∨
            cellAt b (row + d.1) (col + d.2) = 'p' ∨
            cellAt b (row + d.1) (col + d.2) = ' ') then ' '
      else cellAt b (row + d.1) (col + d.2) := by
  induction ds generalizing b with
  | nil => exact absurd hmem (List.not_mem_nil d)
  | cons d0 rest ih =>
    rw [List.foldl_cons]
    rcases List.mem_cons.mp hmem with heq | hrest
    · subst heq
      have hnin : d ∉ rest := (List.nodup_cons.mp hnd).1
      have hother : ∀ d' ∈ rest, ¬(row + d.1 = row + d'.1 ∧ col + d.2 = col + d'.2) := by
        intro d' hd' ⟨h1, h2⟩
        have : d = d' := Prod.ext (by omega) (by omega)
        exact hnin (this ▸ hd')
      rw [foldClear_untouched row col rest _ _ _ hother]
      simp only [clearStep]
      split
      · exact cellAt_setCell_blank _ _ _
      · rfl
    · have hne : d0 ≠ d := fun h => (List.nodup_cons.mp hnd).1 (h ▸ hrest)
      rw [ih (clearStep row col b d0) hrest (List.nodup_cons.mp hnd).2]
      have : cellAt (clearStep row col b d0) (row + d.1) (col + d.2) =
          cellAt b (row + d.1) (col + d.2) := by
        simp only [clearStep]
        split
        · refine cellAt_setCell_ne _ _ _ _ _ _ ?_
          intro ⟨h1, h2⟩
          exact hne (Prod.ext (by omega) (by omega)).symm
        · rfl
      rw [this]

/-- After the clearing phase of `_handle_explosion`, every square of the
9-square blast zone that is in bounds holds a pawn or is empty — in
particular it can hold no king.  This is why the king check that follows
can never fire. -/
theorem blast_zone_immune_after_clear (b : Board) (row col : Int)
    (d : Int × Int) (hd : d ∈ directions ++ [((0 : Int), (0 : Int))])
    (hb : 0 ≤ row + d.1 ∧ row + d.1 < 8 ∧ 0 ≤ col + d.2 ∧ col + d.2 < 8) :
    cellAt (directions.foldl (clearStep row col) (setCell b row col ' '))
        (row + d.1) (col + d.2) = 'P' ∨
    cellAt (directions.foldl (clearStep row col) (setCell b row col ' '))
        (row + d.1) (col + d.2) = 'p' ∨
    cellAt (directions.foldl (clearStep row col) (setCell b row col ' '))
        (row + d.1) (col + d.2) = ' ' := by
  rcases List.mem_append.mp hd with hdir | hcenter
  · rw [foldClear_touched row col directions d _ hdir (by decide)]
    split
    · right; right; rfl
    · next hcond =>
      push_neg at hcond
      exact hcond hb.1 hb.2.1 hb.2.2.1 hb.2.2.2
  · have hd0 : d = ((0 : Int), (0 : Int)) := by
      simpa using hcenter
    subst hd0
    simp only [add_zero]
    exact foldClear_preserves_immune row col directions _ row col
      (Or.inr (Or.inr (cellAt_setCell_blank b row col)))

example : (make_move initialState "d2" "d4").map Prod.fst = some true := by decide
example : (make_move initialState "e2" "e5").map Prod.fst = some false := by decide
example : (make_move initialState "b1" "b3").map Prod.fst = some false := by decide
example : (make_move initialState "b1" "c3").map Prod.fst = some true := by decide
example : make_move initialState "a0" "a1" = none := by decide
example : (make_move initialState "a9" "a8").map Prod.fst = some false := by decide

/-- If no square scanned by the king-detection loop holds a king, the loop
returns the game state unchanged. -/
theorem foldKing_const (b2 : Board) (row col : Int) (ds : List (Int × Int)) :
    ∀ gs : String,
      (∀ d ∈ ds, (0 ≤ row + d.1 ∧ row + d.1 < 8 ∧ 0 ≤ col + d.2 ∧ col + d.2 < 8) →
        cellAt b2 (row + d.1) (col + d.2) ≠ 'K' ∧
        cellAt b2 (row + d.1) (col + d.2) ≠ 'k') →
      ds.foldl (kingStep b2 row col) gs = gs := by
  induction ds with
  | nil => intro gs _; rfl
  | cons d rest ih =>
    intro gs hd
    rw [List.foldl_cons]
    have hstep : kingStep b2 row col gs d = gs := by
      simp only [kingStep]
      split
      · next hb =>
        obtain ⟨hK, hk⟩ := hd d (List.mem_cons_self d rest) hb
        rw [if_neg hK, if_neg hk]
      · rfl
    rw [hstep]
    exact ih gs (fun d' hd' => hd d' (List.mem_cons_of_mem d hd'))

/-- `_handle_explosion` never changes `_game_state`: its king check runs
over the board from which the clearing loop has already removed every king
in the blast zone, so it can never fire. -/
theorem handle_explosion_preserves_game_state (b : Board) (gs : String)
    (row col : Int) : (handle_explosion b gs row col).2 = gs := by
  simp only [handle_explosion]
  apply foldKing_const
  intro d hd hb
  rcases blast_zone_immune_after_clear b row col d hd hb with h | h | h <;>
    exact ⟨by rw [h]; decide, by rw [h]; decide⟩


/-- C6: explosion resolution clears the center square (removing the moved
piece — even a pawn — and with it the already-overwritten captured piece),
removes every non-pawn occupant of the in-bounds adjacent squares, leaves
every pawn on those squares in place, and changes no square outside the
blast zone. -/
theorem c6_explosion_blast_effects (b : Board) (gs : String) (row col : Int) :
    cellAt (handle_explosion b gs row col).1 row col = ' ' ∧
    (∀ d ∈ directions,
      0 ≤ row + d.1 → row + d.1 < 8 → 0 ≤ col + d.2 → col + d.2 < 8 →
      ((cellAt b (row + d.1) (col + d.2) = 'P' ∨
        cellAt b (row + d.1) (col + d.2) = 'p') →
        cellAt (handle_explosion b gs row col).1 (row + d.1) (col + d.2) =
          cellAt b (row + d.1) (col + d.2)) ∧
      (¬(cellAt b (row + d.1) (col + d.2) = 'P' ∨
         cellAt b (row + d.1) (col + d.2) = 'p') →
        cellAt (handle_explosion b gs row col).1 (row + d.1) (col + d.2) = ' ')) ∧
    (∀ r c : Int, ¬((r - row).natAbs ≤ 1 ∧ (c - col).natAbs ≤ 1) →
      cellAt (handle_explosion b gs row col).1 r c = cellAt b r c) := by
  have hfst : (handle_explosion b gs row col).1 =
      directions.foldl (clearStep row col) (setCell b row col ' ') := by
    simp only [handle_explosion]
  rw [hfst]
  refine ⟨?_, ?_, ?_⟩
  · rw [foldClear_untouched row col directions _ row col ?_]
    · exact cellAt_setCell_blank b row col
    · intro d hd ⟨h1, h2⟩
      have hde : d = ((0 : Int), (0 : Int)) := Prod.ext (by omega) (by omega)
      subst hde
      exact absurd hd (by decide)
  · intro d hd hb1 hb2 hb3 hb4
    have hd0 : ¬(d.1 = 0 ∧ d.2 = 0) := by
      intro ⟨h1, h2⟩
      have hde : d = ((0 : Int), (0 : Int)) := Prod.ext h1 h2
      subst hde
      exact absurd hd (by decide)
    have hne : ¬(row + d.1 = row ∧ col + d.2 = col) := by
      intro ⟨h1, h2⟩
      exact hd0 ⟨by omega, by omega⟩
    have hb1eq : cellAt (setCell b row col ' ') (row + d.1) (col + d.2) =
        cellAt b (row + d.1) (col + d.2) :=
      cellAt_setCell_ne b row col (row + d.1) (col + d.2) ' ' hne
    rw [foldClear_touched row col directions d _ hd (by decide), hb1eq]
    constructor
    · intro hpawn
      rw [if_neg ?_]
      push_neg
      intro _ _ _ _
      rcases hpawn with h | h
      · exact Or.inl h
      · exact Or.inr (Or.inl h)
    · intro hnp
      by_cases hsp : cellAt b (row + d.1) (col + d.2) = ' '
      · rw [if_neg ?_, hsp]
        push_neg
        intro _ _ _ _
        exact Or.inr (Or.inr hsp)
      · rw [if_pos ?_]
        refine ⟨hb1, hb2, hb3, hb4, ?_⟩
        intro hc
        rcases hc with h | h | h
        · exact hnp (Or.inl h)
        · exact hnp (Or.inr h)
        · exact hsp h
  · intro r c hout
    have hnotshift : ∀ d ∈ directions, ¬(r = row + d.1 ∧ c = col + d.2) := by
      intro d hd ⟨h1, h2⟩
      have hsmall : d.1.natAbs ≤ 1 ∧ d.2.natAbs ≤ 1 := by
        fin_cases hd <;> decide
      exact hout ⟨by omega, by omega⟩
    rw [foldClear_untouched row col directions _ r c hnotshift]
    refine cellAt_setCell_ne b row col r c ' ' ?_
    intro ⟨h1, h2⟩
    exact hout ⟨by omega, by omega⟩

/-! ## Path-walk characterizations (sliding pieces) -/

/-- The horizontal walk starting at `c`, with `ec` exactly `n` steps of
`cs` away (`cs = ±1`), succeeds iff the `n` cells it inspects before
reaching `ec` are all empty. -/
theorem row_walk_spec (b : Board) (row cs : Int) (hcs : cs = 1 ∨ cs = -1) :
    ∀ (n fuel : Nat) (c ec : Int), n < fuel → ec = c + n * cs →
      (row_walk b row ec cs c fuel = true ↔
        ∀ i : Nat, i < n → cellAt b row (c + i * cs) = ' ') := by
  intro n
  induction n with
  | zero =>
    intro fuel c ec hfuel he
    cases fuel with
    | zero => omega
    | succ f =>
      simp only [Nat.cast_zero, zero_mul, add_zero] at he
      subst he
      simp [row_walk]
  | succ n ih =>
    intro fuel c ec hfuel he
    cases fuel with
    | zero => omega
    | succ f =>
      have hne : c ≠ ec := by
        rcases hcs with h | h <;> subst h <;> push_cast at he <;> omega
      have harith : ec = (c + cs) + (n : Int) * cs := by
        rw [he]; push_cast; ring
      rw [row_walk, if_pos hne]
      by_cases hcell : cellAt b row c = ' '
      · rw [if_neg (by simpa using hcell)]
        rw [ih f (c + cs) ec (by omega) harith]
        constructor
        · intro h i hi
          cases i with
          | zero => simpa using hcell
          | succ j =>
            have : c + ((j : Int) + 1) * cs = (c + cs) + (j : Int) * cs := by ring
            have hj := h j (by omega)
            push_cast
            rw [this]
            exact hj
        · intro h i hi
          have : (c + cs) + (i : Int) * cs = c + ((i : Int) + 1) * cs := by ring
          rw [this]
          have hi1 := h (i + 1) (by omega)
          push_cast at hi1
          exact hi1
      · rw [if_pos (by simpa using hcell)]
        constructor
        · intro h
          exact absurd h (by simp)
        · intro h
          exact absurd (by simpa using h 0 (by omega)) hcell

/-- The vertical walk: same characterization as `row_walk_spec`. -/
theorem col_walk_spec (b : Board) (col rs : Int) (hrs : rs = 1 ∨ rs = -1) :
    ∀ (n fuel : Nat) (r er : Int), n < fuel → er = r + n * rs →
      (col_walk b col er rs r fuel = true ↔
        ∀ i : Nat, i < n → cellAt b (r + i * rs) col = ' ') := by
  intro n
  induction n with
  | zero =>
    intro fuel r er hfuel he
    cases fuel with
    | zero => omega
    | succ f =>
      simp only [Nat.cast_zero, zero_mul, add_zero] at he
      subst he
      simp [col_walk]
  | succ n ih =>
    intro fuel r er hfuel he
    cases fuel with
    | zero => omega
    | succ f =>
      have hne : r ≠ er := by
        rcases hrs with h | h <;> subst h <;> push_cast at he <;> omega
      have harith : er = (r + rs) + (n : Int) * rs := by
        rw [he]; push_cast; ring
      rw [col_walk, if_pos hne]
      by_cases hcell : cellAt b r col = ' '
      · rw [if_neg (by simpa using hcell)]
        rw [ih f (r + rs) er (by omega) harith]
        constructor
        · intro h i hi
          cases i with
          | zero => simpa using hcell
          | succ j =>
            have heq : r + ((j : Int) + 1) * rs = (r + rs) + (j : Int) * rs := by ring
            have hj := h j (by omega)
            push_cast
            rw [heq]
            exact hj
        · intro h i hi
          have heq : (r + rs) + (i : Int) * rs = r + ((i : Int) + 1) * rs := by ring
          rw [heq]
          have hi1 := h (i + 1) (by omega)
          push_cast at hi1
          exact hi1
      · rw [if_pos (by simpa using hcell)]
        constructor
        · intro h
          exact absurd h (by simp)
        · intro h
          exact absurd (by simpa using h 0 (by omega)) hcell

/-- The diagonal walk: with `er` and `ec` both exactly `n` steps away
(steps `rs, cs = ±1`), it succeeds iff the `n` inspected cells are empty. -/
theorem diag_walk_spec (b : Board) (rs cs : Int)
    (hrs : rs = 1 ∨ rs = -1) (hcs : cs = 1 ∨ cs = -1) :
    ∀ (n fuel : Nat) (r c er ec : Int), n < fuel →
      er = r + n * rs → ec = c + n * cs →
      (diag_walk b er ec rs cs r c fuel = true ↔
        ∀ i : Nat, i < n → cellAt b (r + i * rs) (c + i * cs) = ' ') := by
  intro n
  induction n with
  | zero =>
    intro fuel r c er ec hfuel her hec
    cases fuel with
    | zero => omega
    | succ f =>
      simp only [Nat.cast_zero, zero_mul, add_zero] at her hec
      subst her; subst hec
      simp [diag_walk]
  | succ n ih =>
    intro fuel r c er ec hfuel her hec
    cases fuel with
    | zero => omega
    | succ f =>
      have hner : r ≠ er := by
        rcases hrs with h | h <;> subst h <;> push_cast at her <;> omega
      have hnec : c ≠ ec := by
        rcases hcs with h | h <;> subst h <;> push_cast at hec <;> omega
      have harithr : er = (r + rs) + (n : Int) * rs := by
        rw [her]; push_cast; ring
      have harithc : ec = (c + cs) + (n : Int) * cs := by
        rw [hec]; push_cast; ring
      rw [diag_walk, if_pos ⟨hner, hnec⟩]
      by_cases hcell : cellAt b r c = ' '
      · rw [if_neg (by simpa using hcell)]
        rw [ih f (r + rs) (c + cs) er ec (by omega) harithr harithc]
        constructor
        · intro h i hi
          cases i with
          | zero => simpa using hcell
          | succ j =>
            have heqr : r + ((j : Int) + 1) * rs = (r + rs) + (j : Int) * rs := by ring
            have heqc : c + ((j : Int) + 1) * cs = (c + cs) + (j : Int) * cs := by ring
            have hj := h j (by omega)
            push_cast
            rw [heqr, heqc]
            exact hj
        · intro h i hi
          have heqr : (r + rs) + (i : Int) * rs = r + ((i : Int) + 1) * rs := by ring
          have heqc : (c + cs) + (i : Int) * cs = c + ((i : Int) + 1) * cs := by ring
          rw [heqr, heqc]
          have hi1 := h (i + 1) (by omega)
          push_cast at hi1
          exact hi1
      · rw [if_pos (by simpa using hcell)]
        constructor
        · intro h
          exact absurd h (by simp)
        · intro h
          exact absurd (by simpa using h 0 (by omega)) hcell


theorem betweenClear_eval (b : Board) (sr sc er ec rs cs : Int) (n : Nat)
    (hr : (er - sr).sign = rs) (hc : (ec - sc).sign = cs)
    (hmax : max (er - sr).natAbs (ec - sc).natAbs = n) :
    betweenClear b sr sc er ec ↔
      ∀ i : Nat, i < n - 1 →
        cellAt b (sr + ((i : Int) + 1) * rs) (sc + ((i : Int) + 1) * cs) = ' ' := by
  unfold betweenClear
  rw [hr, hc, hmax]

theorem forall_cell_congr (b : Board) (k : Nat) (f1 f2 g1 g2 : Nat → Int)
    (hf : ∀ i, i < k → f1 i = f2 i) (hg : ∀ i, i < k → g1 i = g2 i) :
    ((∀ i : Nat, i < k → cellAt b (f1 i) (g1 i) = ' ') ↔
     (∀ i : Nat, i < k → cellAt b (f2 i) (g2 i) = ' ')) := by
  constructor <;> intro h i hi
  · rw [← hf i hi, ← hg i hi]
    exact h i hi
  · rw [hf i hi, hg i hi]
    exact h i hi

/-- The diagonal walk, started one step from `(sr, sc)` as the code does,
checks exactly the strictly-between squares. -/
theorem diag_clear_iff_gen (b : Board) (sr sc er ec rs cs : Int) (n : Nat)
    (hrs : rs = 1 ∨ rs = -1) (hcs : cs = 1 ∨ cs = -1)
    (hn : n ≠ 0) (hfuel : n - 1 < 16)
    (her : er = sr + n * rs) (hec : ec = sc + n * cs) :
    (diag_walk b er ec rs cs (sr + rs) (sc + cs) 16 = true ↔
      ∀ i : Nat, i < n - 1 →
        cellAt b (sr + ((i : Int) + 1) * rs) (sc + ((i : Int) + 1) * cs) = ' ') := by
  have hcast : ((n - 1 : Nat) : Int) = (n : Int) - 1 := by omega
  rw [diag_walk_spec b rs cs hrs hcs (n - 1) 16 (sr + rs) (sc + cs) er ec hfuel
      (by rw [her, hcast]; ring) (by rw [hec, hcast]; ring)]
  exact forall_cell_congr b (n - 1) _ _ _ _
    (fun i _ => by ring) (fun i _ => by ring)

/-- The horizontal walk checks exactly the strictly-between squares of a
move along a rank (row delta 0, hence row sign 0). -/
theorem row_clear_iff_gen (b : Board) (sr sc ec cs : Int) (n : Nat)
    (hcs : cs = 1 ∨ cs = -1) (hn : n ≠ 0) (hfuel : n - 1 < 16)
    (hec : ec = sc + n * cs) :
    (row_walk b sr ec cs (sc + cs) 16 = true ↔
      ∀ i : Nat, i < n - 1 →
        cellAt b (sr + ((i : Int) + 1) * 0) (sc + ((i : Int) + 1) * cs) = ' ') := by
  have hcast : ((n - 1 : Nat) : Int) = (n : Int) - 1 := by omega
  rw [row_walk_spec b sr cs hcs (n - 1) 16 (sc + cs) ec hfuel
      (by rw [hec, hcast]; ring)]
  exact forall_cell_congr b (n - 1) _ _ _ _
    (fun i _ => by ring) (fun i _ => by ring)

/-- The vertical walk checks exactly the strictly-between squares of a
move along a file (column delta 0, hence column sign 0). -/
theorem col_clear_iff_gen (b : Board) (sr sc er rs : Int) (n : Nat)
    (hrs : rs = 1 ∨ rs = -1) (hn : n ≠ 0) (hfuel : n - 1 < 16)
    (her : er = sr + n * rs) :
    (col_walk b sc er rs (sr + rs) 16 = true ↔
      ∀ i : Nat, i < n - 1 →
        cellAt b (sr + ((i : Int) + 1) * rs) (sc + ((i : Int) + 1) * 0) = ' ') := by
  have hcast : ((n - 1 : Nat) : Int) = (n : Int) - 1 := by omega
  rw [col_walk_spec b sc rs hrs (n - 1) 16 (sr + rs) er hfuel
      (by rw [her, hcast]; ring)]
  exact forall_cell_congr b (n - 1) _ _ _ _
    (fun i _ => by ring) (fun i _ => by ring)

/-- `_is_valid_bishop_rook_queen_move` for a bishop: legal iff the move is
diagonal and the strictly-between squares are empty. -/
theorem bishop_move_iff (b : Board) (piece : Cell) (sr sc er ec : Int)
    (hpc : piece = 'B' ∨ piece = 'b')
    (hbnd : 0 ≤ sr ∧ sr < 8 ∧ 0 ≤ sc ∧ sc < 8 ∧ 0 ≤ er ∧ er < 8 ∧ 0 ≤ ec ∧ ec < 8)
    (hne : ¬(sr = er ∧ sc = ec)) :
    (is_valid_bishop_rook_queen_move b piece sr sc er ec = true ↔
      (er - sr).natAbs = (ec - sc).natAbs ∧ betweenClear b sr sc er ec) := by
  obtain ⟨h1, h2, h3, h4, h5, h6, h7, h8⟩ := hbnd
  have hup : piece.toUpper = 'B' := by rcases hpc with h | h <;> subst h <;> decide
  unfold is_valid_bishop_rook_queen_move
  by_cases hdiag : (er - sr).natAbs = (ec - sc).natAbs
  · rw [if_pos ⟨Or.inl hup, hdiag⟩]
    have hn0 : (er - sr).natAbs ≠ 0 := by omega
    have hfuel : (er - sr).natAbs - 1 < 16 := by omega
    simp only [hdiag, true_and]
    have hmax : max (er - sr).natAbs (ec - sc).natAbs = (er - sr).natAbs := by
      rw [← hdiag]; exact Nat.max_self _
    rcases lt_or_gt_of_ne (show sr ≠ er by omega) with hr | hr <;>
      rcases lt_or_gt_of_ne (show sc ≠ ec by omega) with hc | hc
    · rw [if_pos hr, if_pos hc,
        diag_clear_iff_gen b sr sc er ec 1 1 (er - sr).natAbs (Or.inl rfl)
          (Or.inl rfl) hn0 hfuel (by omega) (by omega),
        betweenClear_eval b sr sc er ec 1 1 (er - sr).natAbs
          (Int.sign_eq_one_iff_pos.mpr (by omega))
          (Int.sign_eq_one_iff_pos.mpr (by omega)) hmax]
    · rw [if_pos hr, if_neg (by omega : ¬sc < ec),
        diag_clear_iff_gen b sr sc er ec 1 (-1) (er - sr).natAbs (Or.inl rfl)
          (Or.inr rfl) hn0 hfuel (by omega) (by omega),
        betweenClear_eval b sr sc er ec 1 (-1) (er - sr).natAbs
          (Int.sign_eq_one_iff_pos.mpr (by omega))
          (Int.sign_eq_neg_one_iff_neg.mpr (by omega)) hmax]
    · rw [if_neg (by omega : ¬sr < er), if_pos hc,
        diag_clear_iff_gen b sr sc er ec (-1) 1 (er - sr).natAbs (Or.inr rfl)
          (Or.inl rfl) hn0 hfuel (by omega) (by omega),
        betweenClear_eval b sr sc er ec (-1) 1 (er - sr).natAbs
          (Int.sign_eq_neg_one_iff_neg.mpr (by omega))
          (Int.sign_eq_one_iff_pos.mpr (by omega)) hmax]
    · rw [if_neg (by omega : ¬sr < er), if_neg (by omega : ¬sc < ec),
        diag_clear_iff_gen b sr sc er ec (-1) (-1) (er - sr).natAbs (Or.inr rfl)
          (Or.inr rfl) hn0 hfuel (by omega) (by omega),
        betweenClear_eval b sr sc er ec (-1) (-1) (er - sr).natAbs
          (Int.sign_eq_neg_one_iff_neg.mpr (by omega))
          (Int.sign_eq_neg_one_iff_neg.mpr (by omega)) hmax]
  · rw [if_neg (fun hcond => hdiag hcond.2), if_neg ?_]
    · simp [hdiag]
    · intro ⟨hk, _⟩
      rcases hk with hk | hk <;> rw [hup] at hk <;> exact absurd hk (by decide)

/-- `_is_valid_bishop_rook_queen_move` for a rook: legal iff the move is
along a rank or file and the strictly-between squares are empty. -/
theorem rook_move_iff (b : Board) (piece : Cell) (sr sc er ec : Int)
    (hpc : piece = 'R' ∨ piece = 'r')
    (hbnd : 0 ≤ sr ∧ sr < 8 ∧ 0 ≤ sc ∧ sc < 8 ∧ 0 ≤ er ∧ er < 8 ∧ 0 ≤ ec ∧ ec < 8)
    (hne : ¬(sr = er ∧ sc = ec)) :
    (is_valid_bishop_rook_queen_move b piece sr sc er ec = true ↔
      (sr = er ∨ sc = ec) ∧ betweenClear b sr sc er ec) := by
  obtain ⟨h1, h2, h3, h4, h5, h6, h7, h8⟩ := hbnd
  have hup : piece.toUpper = 'R' := by rcases hpc with h | h <;> subst h <;> decide
  unfold is_valid_bishop_rook_queen_move
  rw [if_neg (fun hcond => by
    rcases hcond.1 with hk | hk <;> rw [hup] at hk <;> exact absurd hk (by decide))]
  by_cases hst : sr = er ∨ sc = ec
  · rw [if_pos ⟨Or.inl hup, hst⟩]
    by_cases hh : sr = er
    · rw [if_pos hh]
      have hscec : sc ≠ ec := fun h => hne ⟨hh, h⟩
      have hn0 : (ec - sc).natAbs ≠ 0 := by omega
      have hfuel : (ec - sc).natAbs - 1 < 16 := by omega
      have hsgn0 : (er - sr).sign = 0 := by rw [show er - sr = 0 by omega]; rfl
      have hmax : max (er - sr).natAbs (ec - sc).natAbs = (ec - sc).natAbs := by
        rw [show (er - sr).natAbs = 0 by omega]
        exact Nat.zero_max _
      rcases lt_or_gt_of_ne hscec with hc | hc
      · rw [if_pos hc,
          row_clear_iff_gen b sr sc ec 1 (ec - sc).natAbs (Or.inl rfl) hn0 hfuel
            (by omega),
          betweenClear_eval b sr sc er ec 0 1 (ec - sc).natAbs hsgn0
            (Int.sign_eq_one_iff_pos.mpr (by omega)) hmax]
        exact ⟨fun h => ⟨hst, h⟩, fun h => h.2⟩
      · rw [if_neg (by omega : ¬sc < ec),
          row_clear_iff_gen b sr sc ec (-1) (ec - sc).natAbs (Or.inr rfl) hn0 hfuel
            (by omega),
          betweenClear_eval b sr sc er ec 0 (-1) (ec - sc).natAbs hsgn0
            (Int.sign_eq_neg_one_iff_neg.mpr (by omega)) hmax]
        exact ⟨fun h => ⟨hst, h⟩, fun h => h.2⟩
    · rw [if_neg hh]
      have hsrer : sr ≠ er := hh
      have hscec : sc = ec := by
        rcases hst with h | h
        · exact absurd h hh
        · exact h
      have hn0 : (er - sr).natAbs ≠ 0 := by omega
      have hfuel : (er - sr).natAbs - 1 < 16 := by omega
      have hsgn0 : (ec - sc).sign = 0 := by rw [show ec - sc = 0 by omega]; rfl
      have hmax : max (er - sr).natAbs (ec - sc).natAbs = (er - sr).natAbs := by
        rw [show (ec - sc).natAbs = 0 by omega]
        exact Nat.max_zero _
      rcases lt_or_gt_of_ne hsrer with hr | hr
      · rw [if_pos hr,
          col_clear_iff_gen b sr sc er 1 (er - sr).natAbs (Or.inl rfl) hn0 hfuel
            (by omega),
          betweenClear_eval b sr sc er ec 1 0 (er - sr).natAbs
            (Int.sign_eq_one_iff_pos.mpr (by omega)) hsgn0 hmax]
        exact ⟨fun h => ⟨hst, h⟩, fun h => h.2⟩
      · rw [if_neg (by omega : ¬sr < er),
          col_clear_iff_gen b sr sc er (-1) (er - sr).natAbs (Or.inr rfl) hn0 hfuel
            (by omega),
          betweenClear_eval b sr sc er ec (-1) 0 (er - sr).natAbs
            (Int.sign_eq_neg_one_iff_neg.mpr (by omega)) hsgn0 hmax]
        exact ⟨fun h => ⟨hst, h⟩, fun h => h.2⟩
  · rw [if_neg (fun hcond => hst hcond.2)]
    constructor
    · intro h
      exact absurd h (by simp)
    · intro h
      exact absurd h.1 hst

/-- `_is_valid_bishop_rook_queen_move` for a queen: legal iff the move is
diagonal or straight and the strictly-between squares are empty. -/
theorem queen_move_iff (b : Board) (piece : Cell) (sr sc er ec : Int)
    (hpc : piece = 'Q' ∨ piece = 'q')
    (hbnd : 0 ≤ sr ∧ sr < 8 ∧ 0 ≤ sc ∧ sc < 8 ∧ 0 ≤ er ∧ er < 8 ∧ 0 ≤ ec ∧ ec < 8)
    (hne : ¬(sr = er ∧ sc = ec)) :
    (is_valid_bishop_rook_queen_move b piece sr sc er ec = true ↔
      ((er - sr).natAbs = (ec - sc).natAbs ∨ sr = er ∨ sc = ec) ∧
        betweenClear b sr sc er ec) := by
  obtain ⟨h1, h2, h3, h4, h5, h6, h7, h8⟩ := hbnd
  have hup : piece.toUpper = 'Q' := by rcases hpc with h | h <;> subst h <;> decide
  unfold is_valid_bishop_rook_queen_move
  by_cases hdiag : (er - sr).natAbs = (ec - sc).natAbs
  · rw [if_pos ⟨Or.inr hup, hdiag⟩]
    have hn0 : (er - sr).natAbs ≠ 0 := by omega
    have hfuel : (er - sr).natAbs - 1 < 16 := by omega
    have hmax : max (er - sr).natAbs (ec - sc).natAbs = (er - sr).natAbs := by
      rw [← hdiag]
      exact Nat.max_self _
    have hiff : (diag_walk b er ec (if sr < er then 1 else -1)
        (if sc < ec then 1 else -1) (sr + if sr < er then 1 else -1)
        (sc + if sc < ec then 1 else -1) 16 = true ↔
        betweenClear b sr sc er ec) := by
      rcases lt_or_gt_of_ne (show sr ≠ er by omega) with hr | hr <;>
        rcases lt_or_gt_of_ne (show sc ≠ ec by omega) with hc | hc
      · rw [if_pos hr, if_pos hc,
          diag_clear_iff_gen b sr sc er ec 1 1 (er - sr).natAbs (Or.inl rfl)
            (Or.inl rfl) hn0 hfuel (by omega) (by omega),
          betweenClear_eval b sr sc er ec 1 1 (er - sr).natAbs
            (Int.sign_eq_one_iff_pos.mpr (by omega))
            (Int.sign_eq_one_iff_pos.mpr (by omega)) hmax]
      · rw [if_pos hr, if_neg (by omega : ¬sc < ec),
          diag_clear_iff_gen b sr sc er ec 1 (-1) (er - sr).natAbs (Or.inl rfl)
            (Or.inr rfl) hn0 hfuel (by omega) (by omega),
          betweenClear_eval b sr sc er ec 1 (-1) (er - sr).natAbs
            (Int.sign_eq_one_iff_pos.mpr (by omega))
            (Int.sign_eq_neg_one_iff_neg.mpr (by omega)) hmax]
      · rw [if_neg (by omega : ¬sr < er), if_pos hc,
          diag_clear_iff_gen b sr sc er ec (-1) 1 (er - sr).natAbs (Or.inr rfl)
            (Or.inl rfl) hn0 hfuel (by omega) (by omega),
          betweenClear_eval b sr sc er ec (-1) 1 (er - sr).natAbs
            (Int.sign_eq_neg_one_iff_neg.mpr (by omega))
            (Int.sign_eq_one_iff_pos.mpr (by omega)) hmax]
      · rw [if_neg (by omega : ¬sr < er), if_neg (by omega : ¬sc < ec),
          diag_clear_iff_gen b sr sc er ec (-1) (-1) (er - sr).natAbs (Or.inr rfl)
            (Or.inr rfl) hn0 hfuel (by omega) (by omega),
          betweenClear_eval b sr sc er ec (-1) (-1) (er - sr).natAbs
            (Int.sign_eq_neg_one_iff_neg.mpr (by omega))
            (Int.sign_eq_neg_one_iff_neg.mpr (by omega)) hmax]
    rw [hiff]
    exact ⟨fun h => ⟨Or.inl hdiag, h⟩, fun h => h.2⟩
  · rw [if_neg (fun hcond => hdiag hcond.2)]
    by_cases hst : sr = er ∨ sc = ec
    · rw [if_pos ⟨Or.inr hup, hst⟩]
      by_cases hh : sr = er
      · rw [if_pos hh]
        have hscec : sc ≠ ec := fun h => hne ⟨hh, h⟩
        have hn0 : (ec - sc).natAbs ≠ 0 := by omega
        have hfuel : (ec - sc).natAbs - 1 < 16 := by omega
        have hsgn0 : (er - sr).sign = 0 := by rw [show er - sr = 0 by omega]; rfl
        have hmax : max (er - sr).natAbs (ec - sc).natAbs = (ec - sc).natAbs := by
          rw [show (er - sr).natAbs = 0 by omega]
          exact Nat.zero_max _
        rcases lt_or_gt_of_ne hscec with hc | hc
        · rw [if_pos hc,
            row_clear_iff_gen b sr sc ec 1 (ec - sc).natAbs (Or.inl rfl) hn0 hfuel
              (by omega),
            betweenClear_eval b sr sc er ec 0 1 (ec - sc).natAbs hsgn0
              (Int.sign_eq_one_iff_pos.mpr (by omega)) hmax]
          exact ⟨fun h => ⟨Or.inr hst, h⟩, fun h => h.2⟩
        · rw [if_neg (by omega : ¬sc < ec),
            row_clear_iff_gen b sr sc ec (-1) (ec - sc).natAbs (Or.inr rfl) hn0
              hfuel (by omega),
            betweenClear_eval b sr sc er ec 0 (-1) (ec - sc).natAbs hsgn0
              (Int.sign_eq_neg_one_iff_neg.mpr (by omega)) hmax]
          exact ⟨fun h => ⟨Or.inr hst, h⟩, fun h => h.2⟩
      · rw [if_neg hh]
        have hscec : sc = ec := by
          rcases hst with h | h
          · exact absurd h hh
          · exact h
        have hn0 : (er - sr).natAbs ≠ 0 := by omega
        have hfuel : (er - sr).natAbs - 1 < 16 := by omega
        have hsgn0 : (ec - sc).sign = 0 := by rw [show ec - sc = 0 by omega]; rfl
        have hmax : max (er - sr).natAbs (ec - sc).natAbs = (er - sr).natAbs := by
          rw [show (ec - sc).natAbs = 0 by omega]
          exact Nat.max_zero _
        rcases lt_or_gt_of_ne (show sr ≠ er from hh) with hr | hr
        · rw [if_pos hr,
            col_clear_iff_gen b sr sc er 1 (er - sr).natAbs (Or.inl rfl) hn0 hfuel
              (by omega),
            betweenClear_eval b sr sc er ec 1 0 (er - sr).natAbs
              (Int.sign_eq_one_iff_pos.mpr (by omega)) hsgn0 hmax]
          exact ⟨fun h => ⟨Or.inr hst, h⟩, fun h => h.2⟩
        · rw [if_neg (by omega : ¬sr < er),
            col_clear_iff_gen b sr sc er (-1) (er - sr).natAbs (Or.inr rfl) hn0
              hfuel (by omega),
            betweenClear_eval b sr sc er ec (-1) 0 (er - sr).natAbs
              (Int.sign_eq_neg_one_iff_neg.mpr (by omega)) hsgn0 hmax]
          exact ⟨fun h => ⟨Or.inr hst, h⟩, fun h => h.2⟩
    · rw [if_neg (fun hcond => hst hcond.2)]
      constructor
      · intro h
        exact absurd h (by simp)
      · intro h
        rcases h.1 with hk | hk
        · exact absurd hk hdiag
        · exact absurd hk hst

/-- A white pawn that matches none of its cases falls through to the
knight/sliding/king checks and fails them all. -/
theorem after_pawn_checks_P (b : Board) (sr sc er ec : Int) :
    after_pawn_checks b 'P' sr sc er ec = false := by
  unfold after_pawn_checks
  rw [if_neg (fun h => absurd h.1 (by decide)), if_neg (by decide),
    if_neg (fun h => absurd h.1 (by decide))]

/-- For a bishop, rook or queen the validator's core is exactly
`_is_valid_bishop_rook_queen_move`. -/
theorem valid_core_brq (b : Board) (sr sc er ec : Int) (piece target : Cell)
    (hpc : piece = 'B' ∨ piece = 'b' ∨ piece = 'R' ∨ piece = 'r' ∨
           piece = 'Q' ∨ piece = 'q') :
    valid_core b sr sc er ec piece target =
      is_valid_bishop_rook_queen_move b piece sr sc er ec := by
  unfold valid_core after_pawn_checks
  rcases hpc with h | h | h | h | h | h <;> subst h <;>
    rw [if_neg (fun hx => absurd hx.1 (by decide)), if_neg (by decide),
      if_neg (fun hx => absurd hx.1 (by decide)), if_pos (by decide)]

/-- For a knight the validator's core is exactly the L-shape test. -/
theorem valid_core_knight (b : Board) (sr sc er ec : Int) (piece target : Cell)
    (hpc : piece = 'N' ∨ piece = 'n') :
    (valid_core b sr sc er ec piece target = true ↔
      (((er - sr).natAbs = 2 ∧ (ec - sc).natAbs = 1) ∨
       ((er - sr).natAbs = 1 ∧ (ec - sc).natAbs = 2))) := by
  unfold valid_core after_pawn_checks
  rcases hpc with h | h <;> subst h <;>
    rw [if_neg (fun hx => absurd hx.1 (by decide)), if_neg (by decide)] <;>
    by_cases hg : ((er - sr).natAbs = 2 ∧ (ec - sc).natAbs = 1) ∨
        ((er - sr).natAbs = 1 ∧ (ec - sc).natAbs = 2)
  · rw [if_pos ⟨by decide, hg⟩]
    simp [hg]
  · rw [if_neg (fun hx => hg hx.2), if_neg (by decide),
      if_neg (fun hx => absurd hx.1 (by decide))]
    simp [hg]
  · rw [if_pos ⟨by decide, hg⟩]
    simp [hg]
  · rw [if_neg (fun hx => hg hx.2), if_neg (by decide),
      if_neg (fun hx => absurd hx.1 (by decide))]
    simp [hg]

/-- `_is_valid_move` returns `False` whenever start and end are the same
square (and the reads succeed). -/
theorem is_valid_move_self (g : ChessVar) (s e : String) (sr sc er ec : Int)
    (hs : convert_to_indices s = some (sr, sc))
    (he : convert_to_indices e = some (er, ec))
    (hWF : WF g.board)
    (hb : 0 ≤ sr ∧ sr < 8 ∧ 0 ≤ sc ∧ sc < 8 ∧ 0 ≤ er ∧ er < 8 ∧ 0 ≤ ec ∧ ec < 8)
    (hse : s = e) :
    is_valid_move g s e = some false := by
  obtain ⟨h1, h2, h3, h4, h5, h6, h7, h8⟩ := hb
  unfold is_valid_move
  rw [hs, he]
  simp only [Option.some_bind]
  rw [pyIdx2_in_bounds g.board sr sc hWF h1 h2 h3 h4,
      pyIdx2_in_bounds g.board er ec hWF h5 h6 h7 h8]
  simp only [Option.some_bind]
  by_cases htc : (g.turn = "WHITE" ∧ (cellAt g.board sr sc).isLower) ∨
      (g.turn = "BLACK" ∧ (cellAt g.board sr sc).isUpper)
  · rw [if_pos htc]
  · rw [if_neg htc, if_pos (Or.inl hse)]

/-- Case analysis of `make_move`: a `some` result is either a rejection
(returning `False` with the object unchanged) or a completed move with the
turn flipped and the board relocated and possibly exploded. -/
theorem make_move_cases (g : ChessVar) (s e : String) (r : Bool × ChessVar)
    (h : make_move g s e = some r) :
    r = (false, g) ∨
    (∃ p q : Int × Int, convert_to_indices s = some p ∧
      convert_to_indices e = some q ∧
      is_valid_move g s e = some true ∧
      r.1 = true ∧
      r.2.turn = (if g.turn = "WHITE" then "BLACK" else "WHITE") ∧
      r.2.board =
        (if cellAt g.board q.1 q.2 ≠ ' ' then
          handle_explosion
            (setCell (setCell g.board q.1 q.2 (cellAt g.board p.1 p.2)) p.1 p.2 ' ')
            g.game_state q.1 q.2
        else
          (setCell (setCell g.board q.1 q.2 (cellAt g.board p.1 p.2)) p.1 p.2 ' ',
           g.game_state)).1) := by
  unfold make_move at h
  by_cases hgs : g.game_state ≠ "UNFINISHED"
  · rw [if_pos hgs] at h
    left
    exact (Option.some_inj.mp h).symm
  · rw [if_neg hgs] at h
    cases hv : is_valid_move g s e with
    | none =>
      rw [hv] at h
      exact Option.noConfusion h
    | some bv =>
      rw [hv] at h
      cases bv with
      | false =>
        left
        exact (Option.some_inj.mp h).symm
      | true =>
        cases hcs : convert_to_indices s with
        | none =>
          rw [hcs] at h
          cases hce : convert_to_indices e with
          | none => rw [hce] at h; exact Option.noConfusion h
          | some q => rw [hce] at h; exact Option.noConfusion h
        | some p =>
          rw [hcs] at h
          cases hce : convert_to_indices e with
          | none => rw [hce] at h; exact Option.noConfusion h
          | some q =>
            rw [hce] at h
            right
            refine ⟨p, q, rfl, rfl, rfl, ?_⟩
            obtain rfl := (Option.some_inj.mp h).symm
            exact ⟨rfl, rfl, rfl⟩

/-- `setCell` either takes effect at its own square or (when the square
does not exist in the underlying lists) leaves it unchanged. -/
theorem cellAt_setCell_or (b : Board) (r c : Int) (x : Cell) :
    cellAt (setCell b r c x) r c = x ∨
    cellAt (setCell b r c x) r c = cellAt b r c := by
  by_cases h : cellAt b r c = ' '
  · by_cases hx : cellAt (setCell b r c x) r c = x
    · exact Or.inl hx
    · right
      rw [h]
      unfold cellAt setCell at *
      by_cases hn : r < 0 ∨ c < 0
      · rw [if_pos hn]
      · simp only [if_neg hn] at hx ⊢
        rw [List.getElem?_set] at hx ⊢
        by_cases hlt : r.toNat < b.length
        · rw [if_pos rfl, if_pos hlt] at hx ⊢
          simp only [Option.getD_some] at hx ⊢
          rw [List.getElem?_set] at hx ⊢
          by_cases hc : c.toNat < (b[r.toNat]?.getD []).length
          · rw [if_pos rfl, if_pos hc] at hx
            exact absurd rfl hx
          · rw [if_pos rfl, if_neg hc] at hx ⊢
            rfl
        · rw [if_pos rfl, if_neg hlt] at hx ⊢
          rfl
  · exact Or.inl (cellAt_setCell_self b r c x h)


/-- Blanking one square never increases the occupied count. -/
theorem occCount_setCell_blank_le (b : Board) (r c : Int) :
    occCount (setCell b r c ' ') ≤ occCount b := by
  unfold occCount
  refine Finset.sum_le_sum ?_
  intro p _
  by_cases hp : ((p.1 : Int) = r ∧ (p.2 : Int) = c)
  · rw [hp.1, hp.2, cellAt_setCell_blank]
    simp
  · rw [cellAt_setCell_ne b r c (p.1 : Int) (p.2 : Int) ' ' hp]

/-- The explosion's clearing loop never increases the occupied count. -/
theorem occCount_foldClear_le (row col : Int) (ds : List (Int × Int)) :
    ∀ b : Board, occCount (ds.foldl (clearStep row col) b) ≤ occCount b := by
  induction ds with
  | nil => intro b; exact le_refl _
  | cons d rest ih =>
    intro b
    rw [List.foldl_cons]
    refine le_trans (ih (clearStep row col b d)) ?_
    simp only [clearStep]
    split
    · exact occCount_setCell_blank_le _ _ _
    · exact le_refl _

/-- `_handle_explosion` never increases the occupied count. -/
theorem occCount_explosion_le (b : Board) (gs : String) (row col : Int) :
    occCount (handle_explosion b gs row col).1 ≤ occCount b := by
  simp only [handle_explosion]
  exact le_trans (occCount_foldClear_le row col directions _)
    (occCount_setCell_blank_le b row col)

/-- Relocating a piece (destination := source piece, then source := blank)
never increases the occupied count. -/
theorem occCount_relocate_le (b : Board) (sr sc er ec : Int)
    (h1 : 0 ≤ sr) (h2 : sr < 8) (h3 : 0 ≤ sc) (h4 : sc < 8)
    (h5 : 0 ≤ er) (h6 : er < 8) (h7 : 0 ≤ ec) (h8 : ec < 8) :
    occCount (setCell (setCell b er ec (cellAt b sr sc)) sr sc ' ') ≤
      occCount b := by
  by_cases hsame : sr = er ∧ sc = ec
  · refine Finset.sum_le_sum ?_
    intro p _
    by_cases hp : ((p.1 : Int) = sr ∧ (p.2 : Int) = sc)
    · rw [hp.1, hp.2, cellAt_setCell_blank]
      simp
    · rw [cellAt_setCell_ne _ sr sc _ _ ' ' hp,
        cellAt_setCell_ne b er ec _ _ _
          (fun hq => hp ⟨hq.1.trans hsame.1.symm, hq.2.trans hsame.2.symm⟩)]
  · have hcasts : ((sr.toNat : Int) = sr) ∧ ((sc.toNat : Int) = sc) ∧
        ((er.toNat : Int) = er) ∧ ((ec.toNat : Int) = ec) := by
      refine ⟨?_, ?_, ?_, ?_⟩ <;> omega
    obtain ⟨hc1, hc2, hc3, hc4⟩ := hcasts
    have hane : ((er.toNat, ec.toNat) : ℕ × ℕ) ≠ (sr.toNat, sc.toNat) := by
      intro hq
      rw [Prod.mk.injEq] at hq
      exact hsame ⟨by omega, by omega⟩
    have ha : ((sr.toNat, sc.toNat) : ℕ × ℕ) ∈
        Finset.range 8 ×ˢ Finset.range 8 := by
      refine Finset.mem_product.mpr ⟨?_, ?_⟩ <;> rw [Finset.mem_range] <;> omega
    have hbq : ((er.toNat, ec.toNat) : ℕ × ℕ) ∈
        (Finset.range 8 ×ˢ Finset.range 8).erase (sr.toNat, sc.toNat) := by
      refine Finset.mem_erase.mpr ⟨hane, ?_⟩
      refine Finset.mem_product.mpr ⟨?_, ?_⟩ <;> rw [Finset.mem_range] <;> omega
    unfold occCount
    rw [← Finset.add_sum_erase _ _ ha, ← Finset.add_sum_erase _ _ hbq]
    conv_rhs => rw [← Finset.add_sum_erase _ _ ha, ← Finset.add_sum_erase _ _ hbq]
    have hrest : ∀ p ∈ ((Finset.range 8 ×ˢ Finset.range 8).erase
        (sr.toNat, sc.toNat)).erase (er.toNat, ec.toNat),
        cellAt (setCell (setCell b er ec (cellAt b sr sc)) sr sc ' ')
          (p.1 : Int) (p.2 : Int) = cellAt b (p.1 : Int) (p.2 : Int) := by
      intro p hp
      have hp1 := (Finset.mem_erase.mp hp).1
      have hp2 := (Finset.mem_erase.mp (Finset.mem_erase.mp hp).2).1
      rw [cellAt_setCell_ne _ sr sc _ _ ' ' (fun hq => hp2 (by
        rw [Prod.mk.injEq]
        exact ⟨by omega, by omega⟩)),
        cellAt_setCell_ne b er ec _ _ _ (fun hq => hp1 (by
        rw [Prod.mk.injEq]
        exact ⟨by omega, by omega⟩))]
    rw [Finset.sum_congr rfl (fun p hp => by rw [hrest p hp])]
    have hcell_a : cellAt (setCell (setCell b er ec (cellAt b sr sc)) sr sc ' ')
        ((sr.toNat : ℕ) : Int) ((sc.toNat : ℕ) : Int) = ' ' := by
      rw [hc1, hc2]
      exact cellAt_setCell_blank _ sr sc
    have hcell_b : cellAt (setCell (setCell b er ec (cellAt b sr sc)) sr sc ' ')
          ((er.toNat : ℕ) : Int) ((ec.toNat : ℕ) : Int) = cellAt b sr sc ∨
        cellAt (setCell (setCell b er ec (cellAt b sr sc)) sr sc ' ')
          ((er.toNat : ℕ) : Int) ((ec.toNat : ℕ) : Int) = cellAt b er ec := by
      rw [hc3, hc4,
        cellAt_setCell_ne _ sr sc er ec ' ' (fun hq => hsame ⟨hq.1.symm, hq.2.symm⟩)]
      exact cellAt_setCell_or b er ec (cellAt b sr sc)
    rw [hcell_a, hc1, hc2, hc3, hc4]
    rcases hcell_b with hv | hv <;> rw [hc3, hc4] at hv <;> rw [hv] <;>
      simp only [ne_eq, not_true_eq_false, if_false, ite_not] <;> omega


/-- C8: for every `make_move` call made while the game state is not
`UNFINISHED` (a terminal state), the call returns `False` and the whole
object — board, turn and game state — is unchanged. -/
theorem c8_terminal_state_rejects (g : ChessVar) (s e : String)
    (h : g.game_state ≠ "UNFINISHED") :
    make_move g s e = some (false, g) := by
  unfold make_move
  rw [if_pos h]

/-- Witness for C8 at a concrete finished game. -/
theorem c8_terminal_state_rejects_witness :
    make_move wonState "e2" "e4" = some (false, wonState) :=
  c8_terminal_state_rejects wonState "e2" "e4" (by decide)

/-- C9: turn changes iff `make_move` returns `True` — a `True` return
flips the turn to the opposite color, and a `False` return leaves the
object (hence the turn) unchanged. -/
theorem c9_turn_flips_iff_success (g : ChessVar) (s e : String)
    (r : Bool × ChessVar) (h : make_move g s e = some r) :
    (r.1 = true → (g.turn = "WHITE" → r.2.turn = "BLACK") ∧
                  (g.turn = "BLACK" → r.2.turn = "WHITE")) ∧
    (r.1 = false → r.2 = g) := by
  rcases make_move_cases g s e r h with hrej | ⟨p, q, _, _, _, htrue, hturn, _⟩
  · subst hrej
    exact ⟨fun hx => Bool.noConfusion hx, fun _ => rfl⟩
  · constructor
    · intro _
      refine ⟨fun ht => ?_, fun ht => ?_⟩
      · rw [hturn, ht, if_pos rfl]
      · rw [hturn, ht, if_neg (by decide)]
    · intro hfalse
      rw [htrue] at hfalse
      exact Bool.noConfusion hfalse

/-- Witness for C9: from the start position, e2-e4 succeeds and the turn
flips to Black. -/
theorem c9_turn_flips_iff_success_witness :
    ((make_move initialState "e2" "e4").get (by decide)).2.turn = "BLACK" :=
  ((c9_turn_flips_iff_success initialState "e2" "e4" _
      (Option.some_get (by decide)).symm).1 (by decide)).1 rfl

/-- C10: no `make_move` call (explosion handling included) increases the
number of occupied squares — pieces are only moved or destroyed, never
created. -/
theorem c10_occupied_count_monotone (g : ChessVar) (s e : String)
    (r : Bool × ChessVar) (h : make_move g s e = some r) :
    occCount r.2.board ≤ occCount g.board := by
  rcases make_move_cases g s e r h with hrej | ⟨p, q, hcs, hce, hv, _, _, hboard⟩
  · subst hrej
    exact le_refl _
  · obtain ⟨sr, sc, er, ec, hs', he', hb1, hb2, hb3, hb4, hb5, hb6, hb7, hb8⟩ :=
      is_valid_move_true_bounds g s e hv
    have hp : p = (sr, sc) := Option.some_inj.mp (hcs.symm.trans hs')
    have hq : q = (er, ec) := Option.some_inj.mp (hce.symm.trans he')
    subst hp
    subst hq
    rw [hboard]
    dsimp only
    split
    · refine le_trans (occCount_explosion_le _ _ _ _) ?_
      exact occCount_relocate_le g.board sr sc er ec hb1 hb2 hb3 hb4 hb5 hb6 hb7 hb8
    · exact occCount_relocate_le g.board sr sc er ec hb1 hb2 hb3 hb4 hb5 hb6 hb7 hb8

/-- Witness for C10 at the opening move e2-e4. -/
theorem c10_occupied_count_monotone_witness :
    occCount ((make_move initialState "e2" "e4").get (by decide)).2.board ≤
      occCount initialState.board :=
  c10_occupied_count_monotone initialState "e2" "e4" _
    (Option.some_get (by decide)).symm

/-- Witness for C6: exploding d3 of the start position leaves the pawn on
d2 (an adjacent square) in place. -/
theorem c6_explosion_blast_effects_witness :
    cellAt (handle_explosion initialize_board "UNFINISHED" 5 3).1 6 3 = 'P' := by
  have h := ((c6_explosion_blast_effects initialize_board "UNFINISHED" 5 3).2.1
      ((1 : Int), (0 : Int)) (by decide) (by decide) (by decide) (by decide)
      (by decide)).1 (by decide)
  exact h.trans (by decide)

/-- C2 (code bug): the explosion's king check runs only after the blast
squares have been cleared, so it can never fire — `_handle_explosion`
never modifies the game state at all, contrary to the claim that a king in
the blast zone makes explosion resolution set the outcome.  Concretely, on
`c2Board` (White queen just landed on e2 capturing a bishop, White king
adjacent on e1) the explosion at e2 leaves the state `UNFINISHED`. -/
theorem c2_explosion_king_check_never_fires :
    (∀ (b : Board) (gs : String) (row col : Int),
      (handle_explosion b gs row col).2 = gs) ∧
    cellAt c2Board 7 4 = 'K' ∧
    (handle_explosion c2Board "UNFINISHED" 6 4).2 = "UNFINISHED" :=
  ⟨handle_explosion_preserves_game_state, by decide, by decide⟩

/-- C3 (code bug): `make_move` reads the board before its bounds check, so
out-of-range notation such as rank `0` or file `i`, and malformed notation
of the wrong length, raise (`none` models the escaping `IndexError` /
`ValueError`) instead of returning `False`. -/
theorem c3_out_of_range_notation_raises :
    make_move initialState "a0" "a1" = none ∧
    make_move initialState "i1" "h1" = none ∧
    make_move initialState "a10" "a2" = none :=
  ⟨by decide, by decide, by decide⟩


/-- C1 (code bug): after Qd1xe2 blows up White's own king, every move of
the sequence returned `True`, the white king is absent (the black king is
still on the board), yet the game state is `WHITE_WON` — the fallback
detector awards the win to the mover, not to the color opposite the
absent king as the claim states. -/
theorem c1_self_destruction_awards_mover :
    (playMoves initialState c1Moves).map (fun p => p.1) =
      some [true, true, true, true, true, true, true] ∧
    (playMoves initialState c1Moves).map
        (fun p => p.2.board.any fun rw => rw.contains 'K') = some false ∧
    (playMoves initialState c1Moves).map
        (fun p => p.2.board.any fun rw => rw.contains 'k') = some true ∧
    (playMoves initialState c1Moves).map (fun p => p.2.game_state) =
      some "WHITE_WON" :=
  ⟨by decide, by decide, by decide, by decide⟩

/-- Counterexample to C5 as stated: d2 = (6,3) holds White's own pawn, yet
the L-shaped knight move b1-d2 is accepted (and detonates). -/
theorem c5_counterexample_own_piece_capture :
    cellAt initialState.board 6 3 = 'P' ∧ initialState.turn = "WHITE" ∧
    (make_move initialState "b1" "d2").map Prod.fst = some true :=
  ⟨by decide, rfl, by decide⟩

/-- C5 amended: an L-shaped knight move by the player to move is legal
regardless of the destination's occupant — own piece, enemy piece or
empty — because the turn-color check constrains only the start square. -/
theorem c5_knight_l_shape_iff (g : ChessVar) (s e : String) (sr sc er ec : Int)
    (hWF : WF g.board)
    (hs : convert_to_indices s = some (sr, sc))
    (he : convert_to_indices e = some (er, ec))
    (hbnd : 0 ≤ sr ∧ sr < 8 ∧ 0 ≤ sc ∧ sc < 8 ∧ 0 ≤ er ∧ er < 8 ∧ 0 ≤ ec ∧ ec < 8)
    (hpc : (g.turn = "WHITE" ∧ cellAt g.board sr sc = 'N') ∨
           (g.turn = "BLACK" ∧ cellAt g.board sr sc = 'n')) :
    (is_valid_move g s e = some true ↔
      ((er - sr).natAbs = 2 ∧ (ec - sc).natAbs = 1) ∨
      ((er - sr).natAbs = 1 ∧ (ec - sc).natAbs = 2)) := by
  have htc : ¬((g.turn = "WHITE" ∧ (cellAt g.board sr sc).isLower) ∨
      (g.turn = "BLACK" ∧ (cellAt g.board sr sc).isUpper)) := by
    rcases hpc with ⟨ht, hp⟩ | ⟨ht, hp⟩ <;> intro hcon <;>
      rcases hcon with ⟨ht2, hl⟩ | ⟨ht2, hl⟩
    · rw [hp] at hl
      exact absurd hl (by decide)
    · rw [ht] at ht2
      exact absurd ht2 (by decide)
    · rw [ht] at ht2
      exact absurd ht2 (by decide)
    · rw [hp] at hl
      exact absurd hl (by decide)
  by_cases hse : s = e
  · have hcoords : sr = er ∧ sc = ec := by
      rw [hse] at hs
      have hpq := Option.some_inj.mp (hs.symm.trans he)
      exact ⟨congrArg Prod.fst hpq, congrArg Prod.snd hpq⟩
    rw [is_valid_move_self g s e sr sc er ec hs he hWF hbnd hse]
    constructor
    · intro hcon
      exact Bool.noConfusion (Option.some_inj.mp hcon)
    · intro hgeom
      exfalso
      obtain ⟨hc1, hc2⟩ := hcoords
      omega
  · rw [is_valid_move_eval g s e sr sc er ec hs he hWF hbnd hse htc,
      Option.some_inj]
    refine valid_core_knight g.board sr sc er ec _ _ ?_
    rcases hpc with ⟨_, hp⟩ | ⟨_, hp⟩
    · exact Or.inl hp
    · exact Or.inr hp

/-- Witness for the amended C5: the L-shaped opening move b1-c3 is legal. -/
theorem c5_knight_l_shape_iff_witness :
    is_valid_move initialState "b1" "c3" = some true :=
  (c5_knight_l_shape_iff initialState "b1" "c3" 7 1 5 2 (by decide) (by decide)
    (by decide) (by decide) (Or.inl ⟨rfl, by decide⟩)).mpr (by decide)

/-- The turn-color check at the top of `_is_valid_move` passes when the
moved piece is the mover's own (uppercase for White, lowercase for Black). -/
theorem turn_check_passes (g : ChessVar) (sr sc : Int) (u l : Cell)
    (hu : u.isLower = false) (hl : l.isUpper = false)
    (hpc : (g.turn = "WHITE" ∧ cellAt g.board sr sc = u) ∨
           (g.turn = "BLACK" ∧ cellAt g.board sr sc = l)) :
    ¬((g.turn = "WHITE" ∧ (cellAt g.board sr sc).isLower) ∨
      (g.turn = "BLACK" ∧ (cellAt g.board sr sc).isUpper)) := by
  rcases hpc with ⟨ht, hp⟩ | ⟨ht, hp⟩ <;> intro hcon <;>
    rcases hcon with ⟨ht2, hx⟩ | ⟨ht2, hx⟩
  · rw [hp, hu] at hx
    exact Bool.noConfusion hx
  · rw [ht] at ht2
    exact absurd ht2 (by decide)
  · rw [ht] at ht2
    exact absurd ht2 (by decide)
  · rw [hp, hl] at hx
    exact Bool.noConfusion hx

/-- C7: for a bishop, rook or queen of the player to move, a move is
rejected whenever any strictly-between square on its line is occupied
(regardless of color), and with a clear path it is legal iff the geometry
is diagonal (bishop), exactly-one-axis (rook), or either (queen). -/
theorem c7_sliding_piece_rules (g : ChessVar) (s e : String) (sr sc er ec : Int)
    (hWF : WF g.board)
    (hs : convert_to_indices s = some (sr, sc))
    (he : convert_to_indices e = some (er, ec))
    (hbnd : 0 ≤ sr ∧ sr < 8 ∧ 0 ≤ sc ∧ sc < 8 ∧ 0 ≤ er ∧ er < 8 ∧ 0 ≤ ec ∧ ec < 8)
    (hne : ¬(sr = er ∧ sc = ec)) :
    (((g.turn = "WHITE" ∧ cellAt g.board sr sc = 'B') ∨
      (g.turn = "BLACK" ∧ cellAt g.board sr sc = 'b')) →
      (is_valid_move g s e = some true ↔
        (er - sr).natAbs = (ec - sc).natAbs ∧ betweenClear g.board sr sc er ec)) ∧
    (((g.turn = "WHITE" ∧ cellAt g.board sr sc = 'R') ∨
      (g.turn = "BLACK" ∧ cellAt g.board sr sc = 'r')) →
      (is_valid_move g s e = some true ↔
        ((sr = er ∧ sc ≠ ec) ∨ (sc = ec ∧ sr ≠ er)) ∧
          betweenClear g.board sr sc er ec)) ∧
    (((g.turn = "WHITE" ∧ cellAt g.board sr sc = 'Q') ∨
      (g.turn = "BLACK" ∧ cellAt g.board sr sc = 'q')) →
      (is_valid_move g s e = some true ↔
        ((er - sr).natAbs = (ec - sc).natAbs ∨
         (sr = er ∧ sc ≠ ec) ∨ (sc = ec ∧ sr ≠ er)) ∧
          betweenClear g.board sr sc er ec)) := by
  have hse : s ≠ e := by
    intro h
    rw [h] at hs
    have hpq := Option.some_inj.mp (hs.symm.trans he)
    exact hne ⟨congrArg Prod.fst hpq, congrArg Prod.snd hpq⟩
  have hxor : ((sr = er ∧ sc ≠ ec) ∨ (sc = ec ∧ sr ≠ er)) ↔ (sr = er ∨ sc = ec) := by
    constructor
    · rintro (⟨h, _⟩ | ⟨h, _⟩)
      · exact Or.inl h
      · exact Or.inr h
    · rintro (h | h)
      · exact Or.inl ⟨h, fun hc => hne ⟨h, hc⟩⟩
      · exact Or.inr ⟨h, fun hr => hne ⟨hr, h⟩⟩
  refine ⟨?_, ?_, ?_⟩
  · intro hpc
    have htc := turn_check_passes g sr sc 'B' 'b' (by decide) (by decide) hpc
    have hmem : cellAt g.board sr sc = 'B' ∨ cellAt g.board sr sc = 'b' := by
      rcases hpc with ⟨_, hp⟩ | ⟨_, hp⟩
      · exact Or.inl hp
      · exact Or.inr hp
    rw [is_valid_move_eval g s e sr sc er ec hs he hWF hbnd hse htc,
      Option.some_inj,
      valid_core_brq g.board sr sc er ec _ _ (by
        rcases hmem with hp | hp
        · exact Or.inl hp
        · exact Or.inr (Or.inl hp))]
    exact bishop_move_iff g.board _ sr sc er ec hmem hbnd hne
  · intro hpc
    have htc := turn_check_passes g sr sc 'R' 'r' (by decide) (by decide) hpc
    have hmem : cellAt g.board sr sc = 'R' ∨ cellAt g.board sr sc = 'r' := by
      rcases hpc with ⟨_, hp⟩ | ⟨_, hp⟩
      · exact Or.inl hp
      · exact Or.inr hp
    rw [is_valid_move_eval g s e sr sc er ec hs he hWF hbnd hse htc,
      Option.some_inj,
      valid_core_brq g.board sr sc er ec _ _ (by
        rcases hmem with hp | hp
        · exact Or.inr (Or.inr (Or.inl hp))
        · exact Or.inr (Or.inr (Or.inr (Or.inl hp)))),
      rook_move_iff g.board _ sr sc er ec hmem hbnd hne]
    exact and_congr_left' hxor.symm
  · intro hpc
    have htc := turn_check_passes g sr sc 'Q' 'q' (by decide) (by decide) hpc
    have hmem : cellAt g.board sr sc = 'Q' ∨ cellAt g.board sr sc = 'q' := by
      rcases hpc with ⟨_, hp⟩ | ⟨_, hp⟩
      · exact Or.inl hp
      · exact Or.inr hp
    rw [is_valid_move_eval g s e sr sc er ec hs he hWF hbnd hse htc,
      Option.some_inj,
      valid_core_brq g.board sr sc er ec _ _ (by
        rcases hmem with hp | hp
        · exact Or.inr (Or.inr (Or.inr (Or.inr (Or.inl hp))))
        · exact Or.inr (Or.inr (Or.inr (Or.inr (Or.inr hp))))),
      queen_move_iff g.board _ sr sc er ec hmem hbnd hne]
    exact and_congr_left' (or_congr_right hxor.symm)

/-- Witness for C7: from the start position the bishop move c1-e3 has
diagonal geometry but d2 is occupied, so the move is not legal. -/
theorem c7_sliding_piece_rules_witness :
    ¬(is_valid_move initialState "c1" "e3" = some true) := by
  intro h
  have hiff := (c7_sliding_piece_rules initialState "c1" "e3" 7 2 5 4 (by decide)
    (by decide) (by decide) (by decide) (by decide)).1 (Or.inl ⟨rfl, by decide⟩)
  have hclear := (hiff.mp h).2
  have h0 := hclear 0 (by decide)
  exact absurd h0 (by decide)


/-- Counterexample to C4 as stated: with White to move, d3 = (5,3) holds
White's own pawn, and the diagonal pawn move e2-d3 onto it is accepted. -/
theorem c4_counterexample_own_piece_diagonal :
    (playMoves initialState c4Moves).map
        (fun p => (p.2.turn, cellAt p.2.board 5 3, cellAt p.2.board 6 4)) =
      some ("WHITE", 'P', 'P') ∧
    (playMoves initialState (c4Moves ++ [("e2", "d3")])).map (fun p => p.1) =
      some [true, true, true] :=
  ⟨by decide, by decide⟩

/-- C4 amended: for the player to move, a one-square diagonally-forward
pawn move is legal iff the destination is occupied by ANY piece (own or
enemy — the code only tests non-emptiness); a one-square forward move is
legal iff the destination is empty; the two-square home-rank move is legal
iff the intermediate and destination squares are both empty. -/
theorem c4_pawn_rules (g : ChessVar) (s e : String) (sr sc er ec : Int)
    (hWF : WF g.board)
    (hs : convert_to_indices s = some (sr, sc))
    (he : convert_to_indices e = some (er, ec))
    (hbnd : 0 ≤ sr ∧ sr < 8 ∧ 0 ≤ sc ∧ sc < 8 ∧ 0 ≤ er ∧ er < 8 ∧ 0 ≤ ec ∧ ec < 8) :
    ((g.turn = "WHITE" ∧ cellAt g.board sr sc = 'P') →
      ((er = sr - 1 → (ec = sc + 1 ∨ ec = sc - 1) →
        (is_valid_move g s e = some true ↔ cellAt g.board er ec ≠ ' ')) ∧
       (er = sr - 1 → ec = sc →
        (is_valid_move g s e = some true ↔ cellAt g.board er ec = ' ')) ∧
       (sr = 6 → er = 4 → ec = sc →
        (is_valid_move g s e = some true ↔
          cellAt g.board 5 sc = ' ' ∧ cellAt g.board 4 sc = ' ')))) ∧
    ((g.turn = "BLACK" ∧ cellAt g.board sr sc = 'p') →
      ((er = sr + 1 → (ec = sc + 1 ∨ ec = sc - 1) →
        (is_valid_move g s e = some true ↔ cellAt g.board er ec ≠ ' ')) ∧
       (er = sr + 1 → ec = sc →
        (is_valid_move g s e = some true ↔ cellAt g.board er ec = ' ')) ∧
       (sr = 1 → er = 3 → ec = sc →
        (is_valid_move g s e = some true ↔
          cellAt g.board 2 sc = ' ' ∧ cellAt g.board 3 sc = ' ')))) := by
  have hse : er ≠ sr → s ≠ e := by
    intro hgeo h
    rw [h] at hs
    have hpq := Option.some_inj.mp (hs.symm.trans he)
    exact hgeo (congrArg Prod.fst hpq).symm
  constructor
  · intro ⟨ht, hp⟩
    have htc := turn_check_passes g sr sc 'P' 'p' (by decide) (by decide)
      (Or.inl ⟨ht, hp⟩)
    refine ⟨?_, ?_, ?_⟩
    · intro hg1 hg2
      rw [is_valid_move_eval g s e sr sc er ec hs he hWF hbnd
        (hse (by omega)) htc, Option.some_inj, hp]
      unfold valid_core
      rw [if_neg (fun hx => absurd hx.1 (by decide)), if_pos (by decide),
        if_pos (by decide),
        if_neg (fun hx => by rcases hx with ⟨x1, x2, x3, _⟩; omega),
        if_neg (fun hx => by rcases hx with ⟨x1, x2, _⟩; omega)]
      by_cases ht' : cellAt g.board er ec ≠ ' '
      · rw [if_pos ⟨hg1, by omega, ht'⟩]
        exact iff_of_true rfl ht'
      · rw [if_neg (fun hx => ht' hx.2.2), after_pawn_checks_P]
        exact iff_of_false (by simp) ht'
    · intro hg1 hg2
      rw [is_valid_move_eval g s e sr sc er ec hs he hWF hbnd
        (hse (by omega)) htc, Option.some_inj, hp]
      unfold valid_core
      rw [if_neg (fun hx => absurd hx.1 (by decide)), if_pos (by decide),
        if_pos (by decide),
        if_neg (fun hx => by rcases hx with ⟨x1, x2, _⟩; omega)]
      by_cases hcell : cellAt g.board er ec = ' '
      · rw [if_pos ⟨hg1, hg2.symm, hcell⟩]
        exact iff_of_true rfl hcell
      · rw [if_neg (fun hx => hcell hx.2.2),
          if_neg (fun hx => by rcases hx with ⟨x1, x2, _⟩; omega),
          after_pawn_checks_P]
        exact iff_of_false (by simp) hcell
    · intro hg1 hg2 hg3
      rw [is_valid_move_eval g s e sr sc er ec hs he hWF hbnd
        (hse (by omega)) htc, Option.some_inj, hp]
      unfold valid_core
      rw [if_neg (fun hx => absurd hx.1 (by decide)), if_pos (by decide),
        if_pos (by decide)]
      by_cases h5 : cellAt g.board 5 sc = ' '
      · by_cases h4 : cellAt g.board 4 sc = ' '
        · rw [if_pos ⟨hg1, hg2, hg3.symm, h5, h4⟩]
          exact iff_of_true rfl ⟨h5, h4⟩
        · rw [if_neg (fun hx => h4 hx.2.2.2.2),
            if_neg (fun hx => by rcases hx with ⟨x1, _⟩; omega),
            if_neg (fun hx => by rcases hx with ⟨x1, _⟩; omega),
            after_pawn_checks_P]
          exact iff_of_false (by simp) (fun hc => h4 hc.2)
      · rw [if_neg (fun hx => h5 hx.2.2.2.1),
          if_neg (fun hx => by rcases hx with ⟨x1, _⟩; omega),
          if_neg (fun hx => by rcases hx with ⟨x1, _⟩; omega),
          after_pawn_checks_P]
        exact iff_of_false (by simp) (fun hc => h5 hc.1)
  · intro ⟨ht, hp⟩
    have htc := turn_check_passes g sr sc 'P' 'p' (by decide) (by decide)
      (Or.inr ⟨ht, hp⟩)
    refine ⟨?_, ?_, ?_⟩
    · intro hg1 hg2
      rw [is_valid_move_eval g s e sr sc er ec hs he hWF hbnd
        (hse (by omega)) htc, Option.some_inj, hp]
      unfold valid_core
      rw [if_neg (fun hx => absurd hx.1 (by decide)), if_pos (by decide),
        if_neg (by decide),
        if_neg (fun hx => by rcases hx with ⟨x1, x2, x3, _⟩; omega),
        if_neg (fun hx => by rcases hx with ⟨x1, x2, _⟩; omega)]
      by_cases ht' : cellAt g.board er ec ≠ ' '
      · rw [if_pos ⟨hg1, by omega, ht'⟩]
        exact iff_of_true rfl ht'
      · rw [if_neg (fun hx => ht' hx.2.2)]
        exact iff_of_false (by simp) ht'
    · intro hg1 hg2
      rw [is_valid_move_eval g s e sr sc er ec hs he hWF hbnd
        (hse (by omega)) htc, Option.some_inj, hp]
      unfold valid_core
      rw [if_neg (fun hx => absurd hx.1 (by decide)), if_pos (by decide),
        if_neg (by decide),
        if_neg (fun hx => by rcases hx with ⟨x1, x2, _⟩; omega)]
      by_cases hcell : cellAt g.board er ec = ' '
      · rw [if_pos ⟨hg1, hg2.symm, hcell⟩]
        exact iff_of_true rfl hcell
      · rw [if_neg (fun hx => hcell hx.2.2),
          if_neg (fun hx => by rcases hx with ⟨x1, x2, _⟩; omega)]
        exact iff_of_false (by simp) hcell
    · intro hg1 hg2 hg3
      rw [is_valid_move_eval g s e sr sc er ec hs he hWF hbnd
        (hse (by omega)) htc, Option.some_inj, hp]
      unfold valid_core
      rw [if_neg (fun hx => absurd hx.1 (by decide)), if_pos (by decide),
        if_neg (by decide)]
      by_cases h2c : cellAt g.board 2 sc = ' '
      · by_cases h3c : cellAt g.board 3 sc = ' '
        · rw [if_pos ⟨hg1, hg2, hg3.symm, h2c, h3c⟩]
          exact iff_of_true rfl ⟨h2c, h3c⟩
        · rw [if_neg (fun hx => h3c hx.2.2.2.2),
            if_neg (fun hx => by rcases hx with ⟨x1, _⟩; omega),
            if_neg (fun hx => by rcases hx with ⟨x1, _⟩; omega)]
          exact iff_of_false (by simp) (fun hc => h3c hc.2)
      · rw [if_neg (fun hx => h2c hx.2.2.2.1),
          if_neg (fun hx => by rcases hx with ⟨x1, _⟩; omega),
          if_neg (fun hx => by rcases hx with ⟨x1, _⟩; omega)]
        exact iff_of_false (by simp) (fun hc => h2c hc.1)

/-- Witness for the amended C4: the forward pawn move d2-d3 into an empty
square is legal. -/
theorem c4_pawn_rules_witness :
    is_valid_move initialState "d2" "d3" = some true :=
  (((c4_pawn_rules initialState "d2" "d3" 6 3 5 3 (by decide) (by decide)
      (by decide) (by decide)).1 ⟨rfl, by decide⟩).2.1 (by decide) rfl).mpr
    (by decide)
